import Mathlib

/-!
Verification of `liquid_tags/notebook.py` (pelican-plugins).

This file gives a shallow embedding of the notebook liquid-tag plugin:

* the directive grammar, the anchored regular expression `FORMAT`
  (source line 276) and the parsing / defaulting logic of the function
  `notebook` (lines 280-300);
* Python's `int()` conversion on the strings produced by the regex groups;
* the cell-slice preprocessor `SubCell.preprocess` (lines 246-255, the
  IPython >= 3 branch; the < 3 branch applies the same slice to each
  worksheet's cell list);
* the highlighter adapter `custom_highlighter` (lines 264-269);
* the posix path operations used by the plugin (`os.path.join`,
  `os.path.normpath`, `os.path.dirname`, `str.replace`) and the output
  write-path computation (lines 368-377);
* the output-extraction filename template (lines 316-328) and its
  instantiation by the extract-output preprocessor;
* the effectful body of `notebook` (lines 310-397) as a function from an
  abstract environment (file system, exporter, configuration) and the
  process-wide header state to a trace of file-system effects, a new
  header state, and a result.

Machine strings are modelled as Lean `String` / `List Char`; all
definitions are computable and evaluate by `decide` / `rfl` / `simp`.
-/

namespace NotebookTag

/-! ## Character classes

`isPyWs` is Python's `\s` restricted to ASCII (space, tab, newline,
carriage return, form feed, vertical tab), which is what the regex meets
in practice; `isDigitCh` is `[0-9]`; `isLangCh` is the character class
`[a-z0-9\+\-]` of the `language` group of `FORMAT`. -/

def isPyWs (c : Char) : Bool :=
  c = ' ' || c = '\t' || c = '\n' || c = '\x0d' || c = '\x0c' || c = '\x0b'

def isDigitCh (c : Char) : Bool :=
  '0' ≤ c && c ≤ '9'

def isLangCh (c : Char) : Bool :=
  ('a' ≤ c && c ≤ 'z') || isDigitCh c || c = '+' || c = '-'

/-! ## List helpers -/

/-- Boolean test that `pat` is an initial segment of `s`. -/
def listStarts : List Char → List Char → Bool
  | [], _ => true
  | _ :: _, [] => false
  | p :: ps, c :: cs => p = c && listStarts ps cs

/-! ## The directive grammar (the regex `FORMAT`)

Source line 276:

  FORMAT = re.compile(r"^(\s+)?(?P<src>\S+)(\s+)?((cells\[)(?P<start>-?[0-9]*):
           (?P<end>-?[0-9]*)(\]))?(\s+)?((language\[)(?P<language>-?[a-z0-9\+\-]*)
           (\]))?(\s+)?$")

and `FORMAT.search(markup)` at line 281.  Since the pattern is anchored at
both ends, `search` is equivalent to a full match at position 0.

The deterministic parser below is equivalent to the backtracking regex:

* `(\s+)?` followed by `\S+`: whitespace characters cannot be matched by
  `\S`, so the leading whitespace run is consumed entirely and `src` is
  the maximal run of non-whitespace characters.  Shortening `src` never
  enables a match: the character after a shortened `src` is a
  non-whitespace character that none of `(\s+)?`, `cells\[`, `language\[`
  or `$` at that point can consume (the group literals would have to
  start exactly at that character, and a maximal `src` already extends
  over them).  Conversely, when the remainder after the maximal `src` is
  empty the whole pattern succeeds because every later group is optional.
* each `(\s+)?` is consumed greedily; the following alternatives start
  with a non-whitespace literal or are the end of input, so no
  backtracking into a whitespace run can occur.
* the optional group `(cells\[...\])?`: if the input at this point starts
  with the literal `cells[` and the group fails later (bad bound, missing
  `:` or `]`), then skipping the group also fails, because the remaining
  pattern `(\s+)?(language\[...\])?(\s+)?$` cannot consume an input that
  starts with `c`.  Hence committing to the group is faithful.  Inside
  the group, `-?[0-9]*` then `:` (resp. `]`) is deterministic: `-` and
  the digits are distinct from the terminator, and declining the `-?`
  when a `-` is present cannot help since `-` is not a digit nor the
  terminator.
* the optional group `(language\[...\])?` is analogous (an input starting
  with `language[` cannot be consumed by `(\s+)?$`), and the class
  `-?[a-z0-9\+\-]*` is one maximal run over `isLangCh` because `-` is in
  the class and `]` is not.
* finally `(\s+)?$`: trailing whitespace (including a trailing newline,
  which `$` would also accept just before) is consumed and the input must
  be exhausted.
-/

/-- Result of a successful `FORMAT` match: the named groups.  `start` and
`stop` (group `end` in the source; `end` is a Lean keyword) are `none`
when the whole `cells[...]` group did not participate in the match. -/
structure MatchGroups where
  src : String
  start : Option String
  stop : Option String
  language : Option String
  deriving Repr, DecidableEq

/-- Parse one slice bound, the sub-pattern `-?[0-9]*`: an optional minus
sign followed by a maximal run of digits.  Returns the matched text and
the rest of the input. -/
def parseBound : List Char → List Char × List Char
  | [] => ([], [])
  | c :: rest =>
      if c = '-' then ('-' :: rest.takeWhile isDigitCh, rest.dropWhile isDigitCh)
      else ((c :: rest).takeWhile isDigitCh, (c :: rest).dropWhile isDigitCh)

/-- Parse the tail of the `cells[` group: `-?[0-9]*:-?[0-9]*]`. -/
def parseCellsTail (l : List Char) : Option ((String × String) × List Char) :=
  let (a, r1) := parseBound l
  match r1 with
  | ':' :: r2 =>
      let (b, r3) := parseBound r2
      match r3 with
      | ']' :: r4 => some ((⟨a⟩, ⟨b⟩), r4)
      | _ => none
  | _ => none

/-- Parse the tail of the `language[` group: `-?[a-z0-9\+\-]*]`. -/
def parseLangTail (l : List Char) : Option (String × List Char) :=
  let lang := l.takeWhile isLangCh
  match l.dropWhile isLangCh with
  | ']' :: r => some (⟨lang⟩, r)
  | _ => none

/-- Phase of the match after the `src` group: `rest1` is the input after
`src` and the following whitespace run.  Handles the two optional groups
and the trailing `(\s+)?$`. -/
def tailPhase (srcChars : List Char) (rest1 : List Char) : Option MatchGroups :=
  let step2 : Option ((Option (String × String)) × List Char) :=
    if listStarts "cells[".data rest1 then
      match parseCellsTail (rest1.drop 6) with
      | some (ab, r) => some (some ab, r)
      | none => none
    else some (none, rest1)
  match step2 with
  | none => none
  | some (cellsGrp, rest2) =>
      let rest3 := rest2.dropWhile isPyWs
      let step3 : Option ((Option String) × List Char) :=
        if listStarts "language[".data rest3 then
          match parseLangTail (rest3.drop 9) with
          | some (lg, r) => some (some lg, r)
          | none => none
        else some (none, rest3)
      match step3 with
      | none => none
      | some (langGrp, rest4) =>
          if rest4.dropWhile isPyWs = [] then
            some { src := ⟨srcChars⟩
                   start := cellsGrp.map Prod.fst
                   stop := cellsGrp.map Prod.snd
                   language := langGrp }
          else none

/-- Model of `FORMAT.search(markup)` on the character list of the markup:
`none` when the regex does not match, otherwise the named groups. -/
def formatMatchL (l : List Char) : Option MatchGroups :=
  let l1 := l.dropWhile isPyWs
  let srcChars := l1.takeWhile (fun c => !isPyWs c)
  if srcChars = [] then none
  else tailPhase srcChars ((l1.dropWhile (fun c => !isPyWs c)).dropWhile isPyWs)

def formatMatch (s : String) : Option MatchGroups :=
  formatMatchL s.data

/-! ## Python `int()` on regex-group strings

Lines 292-300 of the source convert the `start`/`end` groups with
`int(...)`.  The groups always match `-?[0-9]*`; on such strings Python's
`int()` succeeds exactly when at least one digit is present (so it raises
`ValueError` on `""` and on `"-"`), returning the signed decimal value.
`digitsVal` is the value of a digit run, most significant digit first. -/

def digitsVal (l : List Char) : Nat :=
  l.foldl (fun a c => 10 * a + (c.toNat - 48)) 0

def pyIntL : List Char → Option Int
  | [] => none
  | c :: cs =>
      if c = '-' then
        if cs ≠ [] && cs.all isDigitCh then some (-(digitsVal cs : Int)) else none
      else if (c :: cs).all isDigitCh then some ((digitsVal (c :: cs) : Int)) else none

def pyInt (s : String) : Option Int :=
  pyIntL s.data

/-- Total value of an integer-literal string (0 on junk); used only to
state theorems about strings on which `pyInt` succeeds. -/
def pyIntVal (s : String) : Int :=
  (pyInt s).getD 0

/-! ## The `notebook` parsing front end (lines 279-300)

Errors raised by the parsing steps.  `valueError msg` models a Python
`ValueError(msg)`; `ioError` models an `IOError`/`OSError` from the
file-system steps further down. -/

inductive PyErr where
  | valueError (msg : String)
  | ioError (msg : String)
  deriving Repr, DecidableEq

/-- Source line 275, the string `SYNTAX` (braces written `\x7b`/`\x7d`). -/
def SYNTAX : String :=
  "\x7b% notebook /path/to/notebook.ipynb [ cells[start:end] ] [ language[language] ] %\x7d"

/-- Message of the `ValueError` raised at lines 289-290. -/
def syntaxErrMsg : String :=
  "Error processing input, expected syntax: " ++ SYNTAX

/-- Message of the `ValueError` raised by Python's `int()` on a
non-numeric string, e.g. `int('-')`. -/
def intErrMsg (s : String) : String :=
  "invalid literal for int() with base 10: \x27" ++ s ++ "\x27"

/-- Directive data recovered by the front end of `notebook`:
`src`, `start` (default 0), `stop` (the variable `end` in the source,
default `None`), `language` (default `None`). -/
structure ParsedDirective where
  src : String
  start : Int
  stop : Option Int
  language : Option String
  deriving Repr, DecidableEq

/-- Python truthiness of an optional string: `None` and `""` are falsy. -/
def strTruthy : Option String → Bool
  | none => false
  | some s => s ≠ ""

/-- Convert one bound group as lines 292-300 do: falsy group maps to the
default, otherwise `int(...)` (which can raise). -/
def convBound (g : Option String) (deflt : Option Int) :
    Except PyErr (Option Int) :=
  if strTruthy g then
    match g with
    | some s =>
        match pyInt s with
        | some v => .ok (some v)
        | none => .error (.valueError (intErrMsg s))
    | none => .ok deflt
  else .ok deflt

/-- Model of lines 281-300 of `notebook`: regex match, syntax error on
failure, then conversion and defaulting of the bounds. -/
def notebookParse (markup : String) : Except PyErr ParsedDirective :=
  match formatMatch markup with
  | none => .error (.valueError syntaxErrMsg)
  | some g =>
      match convBound g.start (some 0) with
      | .error e => .error e
      | .ok s =>
          match convBound g.stop none with
          | .error e => .error e
          | .ok e =>
              .ok { src := g.src
                    start := s.getD 0
                    stop := e
                    language := g.language }

/-! ## Cell-range selection (`SliceIndex` bounds and `SubCell.preprocess`)

Lines 239-257.  The slice `cells[self.start:self.end]` is Python list
slicing with step 1; `pySliceIdx` is the index normalization of
`slice.indices` (negative indices count from the end, out-of-range
bounds clamp), and `pySlice` is `l[start:stop]`. -/

def pySliceIdx (n : Nat) (i : Int) : Nat :=
  if i < 0 then (max 0 ((n : Int) + i)).toNat else min i.toNat n

def pySlice {α : Type} (start : Int) (stop : Option Int) (l : List α) : List α :=
  let n := l.length
  let s := pySliceIdx n start
  let e := match stop with
    | none => n
    | some j => pySliceIdx n j
  (l.drop s).take (e - s)

/-- A notebook document as `SubCell` sees it: an ordered sequence of
cells (cell contents are opaque, type parameter `α`). -/
structure Notebook (α : Type) where
  cells : List α
  deriving Repr, DecidableEq

namespace SubCell

/-- Model of `SubCell.preprocess` (lines 246-255, IPython >= 3 branch;
the < 3 branch applies the same slice to each worksheet's cell list):
`nbc = deepcopy(nb)` then `nbc.cells = nbc.cells[self.start:self.end]`.
The attribute assignment mutates the deep copy `nbc`, never the caller's
object, so the embedding returns the new document together with the
state of the passed-in `nb` after the call (its second component). -/
def preprocess {α : Type} (start : Int) (stop : Option Int) (nb : Notebook α) :
    Notebook α × Notebook α :=
  let nbc := nb
  let nbc2 : Notebook α := { nbc with cells := pySlice start stop nbc.cells }
  (nbc2, nb)

end SubCell

/-- Character lists denoting a Python integer literal: a nonempty digit
run, optionally preceded by a single minus sign. -/
def intLit (l : List Char) : Prop :=
  (l ≠ [] ∧ ∀ c ∈ l, isDigitCh c = true) ∨
  (∃ t, l = '-' :: t ∧ t ≠ [] ∧ ∀ c ∈ t, isDigitCh c = true)

/-- Value recovered for the `start` bound: asking for `""` (the bound
omitted) yields the default 0, otherwise the literal's integer value. -/
def startDefault (sa : String) : Int :=
  if sa = "" then 0 else pyIntVal sa

/-- Value recovered for the `end` bound: `""` yields the default `None`,
otherwise the literal's integer value. -/
def stopDefault (sb : String) : Option Int :=
  if sb = "" then none else some (pyIntVal sb)

/-- Substring occurrence: `p` occurs contiguously inside `s`. -/
def occursIn (p s : List Char) : Prop :=
  ∃ l r, s = l ++ (p ++ r)

/-! ## Python `str.replace`

`str.replace(old, new)` replaces every non-overlapping occurrence of
`old`, scanning left to right and continuing after the replaced text.
The fuel argument (one unit per consumed character) only makes the
recursion structural; `pyStrReplace` supplies enough fuel. -/

def replFuel (pat rep : List Char) : Nat → List Char → List Char
  | _, [] => []
  | 0, l => l
  | fuel + 1, c :: rest =>
      if listStarts pat (c :: rest) && decide (0 < pat.length) then
        rep ++ replFuel pat rep fuel (rest.drop (pat.length - 1))
      else c :: replFuel pat rep fuel rest

def pyStrReplace (s pat rep : String) : String :=
  ⟨replFuel pat.data rep.data s.data.length s.data⟩

/-! ## The highlighter adapter (lines 262-269)

`custom_highlighter(source, language='ipython', metadata=None)` builds a
`HtmlFormatter(cssclass='highlight-ipynb')`, defaults a falsy `language`
(None or `''`) to `'ipython'`, delegates to `_pygments_highlight` (the
external syntax-highlighting call, abstracted as the argument `hl`), and
rewrites plain `<pre>` tags in the result.  The unused `metadata`
parameter is omitted. -/

structure HtmlFormatter where
  cssclass : String
  deriving Repr, DecidableEq

/-- Python truthiness defaulting of the `language` argument:
`if not language: language = 'ipython'`. -/
def pyLangDefault : Option String → String
  | none => "ipython"
  | some l => if l = "" then "ipython" else l

def custom_highlighter (hl : String → HtmlFormatter → String → String)
    (source : String) (language : Option String) : String :=
  let formatter : HtmlFormatter := ⟨"highlight-ipynb"⟩
  let language2 := pyLangDefault language
  let output := hl source formatter language2
  pyStrReplace output "<pre>" "<pre class=\x22ipynb\x22>"

/-! ## Posix path operations

Models of the `os.path` functions the plugin calls (posix flavour, which
is what both the original deployment and the path-handling claims are
about): `join`, `normpath`, `dirname`, `relpath`, `splitext`. -/

/-- `os.path.join(a, b)`: an absolute `b` discards `a`. -/
def pyJoin (a b : String) : String :=
  if listStarts "/".data b.data then b
  else if a = "" then b
  else if a.data.getLast? = some '/' then a ++ b
  else a ++ "/" ++ b

/-- Split a character list on a separator; always returns at least one
(possibly empty) group, like Python's `str.split(sep)`. -/
def splitOnChar (sep : Char) : List Char → List (List Char)
  | [] => [[]]
  | c :: rest =>
      match splitOnChar sep rest with
      | [] => [[]]
      | g :: gs => if c = sep then [] :: g :: gs else (c :: g) :: gs

/-- Inverse of `splitOnChar`: `sep.join(groups)`. -/
def joinWithChar (sep : Char) : List (List Char) → List Char
  | [] => []
  | [g] => g
  | g :: gs => g ++ sep :: joinWithChar sep gs

/-- Component-normalization loop of `posixpath.normpath`: skip empty and
`.` components; append a component unless it is `..` cancelling against
a previous real component (for relative paths a leading `..` run is
kept; for absolute paths a leading `..` is dropped). -/
def normComps (isAbs : Bool) : List (List Char) → List (List Char) → List (List Char)
  | acc, [] => acc
  | acc, comp :: rest =>
      if comp = [] ∨ comp = ['.'] then normComps isAbs acc rest
      else if comp ≠ ['.', '.'] ∨ (isAbs = false ∧ acc = []) ∨ acc.getLast? = some ['.', '.'] then
        normComps isAbs (acc ++ [comp]) rest
      else normComps isAbs acc.dropLast rest

/-- `posixpath.normpath`. -/
def posixNormpath (p : String) : String :=
  if p.data = [] then "." else
  let slashes : Nat :=
    if listStarts "//".data p.data && !listStarts "///".data p.data then 2
    else if listStarts "/".data p.data then 1 else 0
  let comps := normComps (decide (0 < slashes)) [] (splitOnChar '/' p.data)
  let joined := List.replicate slashes '/' ++ joinWithChar '/' comps
  if joined = [] then "." else ⟨joined⟩

/-- `posixpath.dirname`: everything before the last slash, with trailing
slashes stripped unless the result is all slashes. -/
def pyDirname (p : String) : String :=
  let rev := p.data.reverse
  let afterDrop := rev.dropWhile (fun c => !(c = '/'))
  if afterDrop = [] then ""
  else if afterDrop.all (fun c => c = '/') then ⟨afterDrop.reverse⟩
  else ⟨(afterDrop.dropWhile (fun c => c = '/')).reverse⟩

/-- Length of the longest common component prefix. -/
def commonLen : List (List Char) → List (List Char) → Nat
  | a :: as, b :: bs => if a = b then commonLen as bs + 1 else 0
  | _, _ => 0

/-- `posixpath.relpath(path, start)` for two relative paths (both of the
plugin's arguments are; `abspath` then contributes the same working
directory components to both sides, which the common-prefix computation
cancels). -/
def pyRelpath (path start : String) : String :=
  let pl := (splitOnChar '/' (posixNormpath path).data).filter (fun g => ¬ g = [])
  let sl := (splitOnChar '/' (posixNormpath start).data).filter (fun g => ¬ g = [])
  let i := commonLen pl sl
  let rel := List.replicate (sl.length - i) ['.', '.'] ++ pl.drop i
  if rel = [] then "." else ⟨joinWithChar '/' rel⟩

/-- Root part of `posixpath.splitext`: the extension starts at the last
dot, provided it lies after the last slash and the basename does not
consist solely of leading dots up to there. -/
def splitextStem (p : String) : String :=
  let rev := p.data.reverse
  let afterDot := rev.dropWhile (fun c => !(c = '.') && !(c = '/'))
  match afterDot with
  | '.' :: restRev =>
      if (restRev.takeWhile (fun c => !(c = '/'))).all (fun c => c = '.') then p
      else ⟨restRev.reverse⟩
  | _ => p

/-! ## The output write path (lines 368-371)

For each extracted output `name`, the plugin computes
`os.path.normpath(os.path.join('output', name.replace('../', '')))`
(the output directory is hardcoded) and writes the binary content
there. -/

def writePath (name : String) : String :=
  posixNormpath (pyJoin "output" (pyStrReplace name "../" ""))

/-- The computed path stays inside the hardcoded output directory. -/
def underOutput (p : String) : Prop :=
  p = "output" ∨ listStarts "output/".data p.data = true

/-! ## The output-extraction filename template (lines 316-328)

The template is `join(rel_output_prefix, splitext(src)[0])` followed by
`_{unique_key}_{cell_index}_{index}{extension}`; `applyTmpl` is the
`str.format` instantiation that the external `ExtractOutputPreprocessor`
performs for the output number `outputIndex` of cell `cellIndex`. -/

/-- Decimal digit character. -/
def digitCh : Nat → Char
  | 0 => '0' | 1 => '1' | 2 => '2' | 3 => '3' | 4 => '4'
  | 5 => '5' | 6 => '6' | 7 => '7' | 8 => '8' | _ => '9'

/-- Decimal rendering of a natural number (Python `str(n)` /
`'{}'.format(n)`); fuel only makes the recursion structural. -/
def natStrAux : Nat → Nat → List Char
  | 0, _ => []
  | fuel + 1, n => if n < 10 then [digitCh n] else natStrAux fuel (n / 10) ++ [digitCh (n % 10)]

def natStr (n : Nat) : String :=
  ⟨natStrAux (n + 1) n⟩

def applyTmpl (stem key : String) (cellIndex outputIndex : Nat) (ext : String) : String :=
  stem ++ "_" ++ key ++ "_" ++ natStr cellIndex ++ "_" ++ natStr outputIndex ++ ext

/-- The static supplementary style/script block `JS_INCLUDE` of lines
127-217, appended to the CSS when the header file is written (brace,
quote and apostrophe characters escaped). -/
def JS_INCLUDE : String :=
  "\n"
  ++ "<style type=\"text/css\">\n"
  ++ "/* Overrides of notebook CSS for static HTML export */\n"
  ++ "div.entry-content \x7b\n"
  ++ "  overflow: visible;\n"
  ++ "  padding: 8px;\n"
  ++ "\x7d\n"
  ++ ".input_area \x7b\n"
  ++ "  padding: 0.2em;\n"
  ++ "\x7d\n"
  ++ "\n"
  ++ "a.heading-anchor \x7b\n"
  ++ " white-space: normal;\n"
  ++ "\x7d\n"
  ++ "\n"
  ++ ".rendered_html\n"
  ++ "code \x7b\n"
  ++ " font-size: .8em;\n"
  ++ "\x7d\n"
  ++ "\n"
  ++ "pre.ipynb \x7b\n"
  ++ "  color: black;\n"
  ++ "  background: #f7f7f7;\n"
  ++ "  border: none;\n"
  ++ "  box-shadow: none;\n"
  ++ "  margin-bottom: 0;\n"
  ++ "  padding: 0;\n"
  ++ "  margin: 0px;\n"
  ++ "  font-size: 13px;\n"
  ++ "\x7d\n"
  ++ "\n"
  ++ "/* remove the prompt div from text cells */\n"
  ++ "div.text_cell .prompt \x7b\n"
  ++ "    display: none;\n"
  ++ "\x7d\n"
  ++ "\n"
  ++ "/* remove horizontal padding from text cells, */\n"
  ++ "/* so it aligns with outer body text */\n"
  ++ "div.text_cell_render \x7b\n"
  ++ "    padding: 0.5em 0em;\n"
  ++ "\x7d\n"
  ++ "\n"
  ++ "img.anim_icon\x7bpadding:0; border:0; vertical-align:middle; -webkit-box-shadow:none; -box-shadow:none\x7d\n"
  ++ "\n"
  ++ "div.collapseheader \x7b\n"
  ++ "    width=100%;\n"
  ++ "    background-color:#d3d3d3;\n"
  ++ "    padding: 2px;\n"
  ++ "    cursor: pointer;\n"
  ++ "    font-family:\"Helvetica Neue\",Helvetica,Arial,sans-serif;\n"
  ++ "\x7d\n"
  ++ "</style>\n"
  ++ "\n"
  ++ "<script src=\"https://cdn.mathjax.org/mathjax/latest/MathJax.js?config=TeX-AMS_HTML\" type=\"text/javascript\"></script>\n"
  ++ "<script type=\"text/javascript\">\n"
  ++ "init_mathjax = function() \x7b\n"
  ++ "    if (window.MathJax) \x7b\n"
  ++ "        // MathJax loaded\n"
  ++ "        MathJax.Hub.Config(\x7b\n"
  ++ "            tex2jax: \x7b\n"
  ++ "                inlineMath: [ [\x27$\x27,\x27$\x27], [\"\\\\(\",\"\\\\)\"] ],\n"
  ++ "                displayMath: [ [\x27$$\x27,\x27$$\x27], [\"\\\\[\",\"\\\\]\"] ]\n"
  ++ "            \x7d,\n"
  ++ "            displayAlign: \x27left\x27, // Change this to \x27center\x27 to center equations.\n"
  ++ "            \"HTML-CSS\": \x7b\n"
  ++ "                styles: \x7b\x27.MathJax_Display\x27: \x7b\"margin\": 0\x7d\x7d\n"
  ++ "            \x7d\n"
  ++ "        \x7d);\n"
  ++ "        MathJax.Hub.Queue([\"Typeset\",MathJax.Hub]);\n"
  ++ "    \x7d\n"
  ++ "\x7d\n"
  ++ "init_mathjax();\n"
  ++ "</script>\n"
  ++ "<script src=\"https://ajax.googleapis.com/ajax/libs/jquery/1.10.2/jquery.min.js\"></script>\n"
  ++ "\n"
  ++ "<script type=\"text/javascript\">\n"
  ++ "jQuery(document).ready(function($) \x7b\n"
  ++ "    $(\"div.collapseheader\").click(function () \x7b\n"
  ++ "    $header = $(this).children(\"span\").first();\n"
  ++ "    $codearea = $(this).children(\".input_area\");\n"
  ++ "    console.log($(this).children());\n"
  ++ "    $codearea.slideToggle(500, function () \x7b\n"
  ++ "        $header.text(function () \x7b\n"
  ++ "            return $codearea.is(\":visible\") ? \"Collapse Code\" : \"Expand Code\";\n"
  ++ "        \x7d);\n"
  ++ "    \x7d);\n"
  ++ "\x7d);\n"
  ++ "\x7d);\n"
  ++ "</script>\n"
  ++ "\n"
  ++ ""


/-- The `CSS_WRAPPER.format(css_line)` of lines 219-223. -/
def cssWrap (cssLine : String) : String :=
  "\n<style type=\x22text/css\x22>\n" ++ cssLine ++ "\n</style>\n"

/-- Header content written to `_nb_header.html` (lines 384-386):
the CSS fragments of `resources['inlining']['css']`, each wrapped in a
style block, joined by newlines, followed by `JS_INCLUDE`. -/
def buildHeader (css : List String) : String :=
  String.intercalate "\n" (css.map cssWrap) ++ JS_INCLUDE

/-- Message printed at lines 381-382 before the header is written. -/
def headerMsg : String :=
  "\n ** Writing styles to _nb_header.html: this should be included in the theme. **\n"

/-! ## The effectful body of `notebook` (lines 279-397)

The environment abstracts the host pipeline and the external libraries:
the two configuration lookups, the file system, `nbformat.reads`, the
exporter's `from_notebook_node`, and the markdown stash.  `Nb` is the
opaque type of loaded notebook documents.  The two failure switches
model an `IOError` raised when opening the first extracted-output file
resp. the header file for writing. -/

structure Resources where
  outputs : List (String × String)
  css : List String
  deriving Repr, DecidableEq

/-- The traitlets `Config(config_dict)` of lines 304-331 (the exporter
configuration derived from the directive), together with the
`language`-specialized highlight filter of line 302. -/
structure Config where
  highlightClass : String
  subCellStart : Int
  subCellStop : Option Int
  extractEnabled : Bool
  outputFilenameTmpl : Option String
  language : Option String
  deriving Repr, DecidableEq

inductive Effect where
  | readFile (path : String)
  | mkDirs (path : String)
  | writeFile (path : String) (data : String)
  | printMsg (msg : String)
  | writeHeader (content : String)
  deriving Repr, DecidableEq

/-- The process-wide header state: the `notebook.header_saved` flag
(line 397 initializes it to `False`) and the current content of the
shared header file `_nb_header.html`. -/
structure HeaderState where
  headerSaved : Bool
  headerFile : Option String
  deriving Repr, DecidableEq

def initialHeaderState : HeaderState :=
  ⟨false, none⟩

structure Env (Nb : Type) where
  notebookDir : String
  notebookOutput : Option String
  fsExists : String → Bool
  isDir : String → Bool
  fileRead : String → String
  parseNb : String → Except String Nb
  exportNb : Config → String → Nb → Except String (String × Resources)
  stash : String → String
  outputWriteFails : Bool
  headerWriteFails : Bool

/-- The resolved notebook path of line 311:
`os.path.join('content', nb_dir, src)`. -/
def nbPathOf {Nb : Type} (env : Env Nb) (src : String) : String :=
  pyJoin (pyJoin "content" env.notebookDir) src

/-- The template stem `os.path.join(rel_output_prefix, splitext(src)[0])`
of lines 316-324. -/
def tmplStem (out src nbPath : String) : String :=
  let outputDir := pyJoin "content" out
  let relOutDir := pyRelpath outputDir (pyDirname nbPath)
  pyJoin relOutDir (splitextStem src)

/-- Lines 302-331: the configuration object passed to the exporter. -/
def mkConfig {Nb : Type} (env : Env Nb) (d : ParsedDirective) (nbPath : String) : Config :=
  { highlightClass := ".highlight-ipynb"
    subCellStart := d.start
    subCellStop := d.stop
    extractEnabled := env.notebookOutput.isSome
    outputFilenameTmpl := env.notebookOutput.map (fun out =>
      tmplStem out d.src nbPath ++
        "_\x7bunique_key\x7d_\x7bcell_index\x7d_\x7bindex\x7d\x7bextension\x7d")
    language := d.language }

/-- The file-system effects of the output loop (lines 368-377):
`makedirs` when the directory is missing, then the binary write. -/
def outputEffects (isDir : String → Bool) (outputs : List (String × String)) : List Effect :=
  (outputs.map (fun nd =>
    let p := writePath nd.1
    (if isDir (pyDirname p) then [] else [Effect.mkDirs (pyDirname p)]) ++
      [Effect.writeFile p nd.2])).flatten

/-- The header step (lines 379-390): skipped entirely when
`notebook.header_saved` is already set; otherwise print the notice,
write the built header, and only then set the flag.  A failing open of
the header file raises before anything is written, leaving flag and
file untouched. -/
def headerStep (headerWriteFails : Bool) (css : List String) (st : HeaderState) :
    List Effect × HeaderState × Except PyErr Unit :=
  if st.headerSaved then ([], st, .ok ())
  else if headerWriteFails then
    ([Effect.printMsg headerMsg], st,
      .error (.ioError "could not open _nb_header.html for writing"))
  else
    let h := buildHeader css
    ([Effect.printMsg headerMsg, Effect.writeHeader h], ⟨true, some h⟩, .ok ())

structure RunResult where
  trace : List Effect
  state : HeaderState
  result : Except PyErr String

/-- One expansion of the `notebook` directive (lines 279-397), as a
function of the environment, the process-wide header state and the
markup: the trace of file-system effects, the new header state, and the
returned HTML fragment or the raised error.  The stages appear in
source order: parse and convert the bounds, resolve and check the path,
build configuration and template, read and parse the file, export,
write extracted outputs, header step, stash. -/
def notebookRun {Nb : Type} (env : Env Nb) (st : HeaderState) (markup : String) :
    RunResult :=
  match notebookParse markup with
  | .error e => ⟨[], st, .error e⟩
  | .ok d =>
      let nbPath := nbPathOf env d.src
      if env.fsExists nbPath = false then
        ⟨[], st, .error (.valueError ("File " ++ nbPath ++ " could not be found"))⟩
      else
        let cfg := mkConfig env d nbPath
        let tmplFile := if env.fsExists "pelicanhtml_3.tpl" then "pelicanhtml_3" else "basic"
        match env.parseNb (env.fileRead nbPath) with
        | .error e => ⟨[Effect.readFile nbPath], st, .error (.valueError e)⟩
        | .ok nbNode =>
            match env.exportNb cfg tmplFile nbNode with
            | .error e => ⟨[Effect.readFile nbPath], st, .error (.valueError e)⟩
            | .ok (body, res) =>
                if env.outputWriteFails ∧ res.outputs ≠ [] then
                  ⟨[Effect.readFile nbPath], st,
                    .error (.ioError "could not write extracted output")⟩
                else
                  let outEff := outputEffects env.isDir res.outputs
                  match headerStep env.headerWriteFails res.css st with
                  | (hEff, st2, .error e) =>
                      ⟨Effect.readFile nbPath :: (outEff ++ hEff), st2, .error e⟩
                  | (hEff, st2, .ok _) =>
                      ⟨Effect.readFile nbPath :: (outEff ++ hEff), st2, .ok (env.stash body)⟩

/-- A sequence of directive expansions within one process run, threading
the process-wide header state. -/
def runSeq {Nb : Type} : List (Env Nb × String) → HeaderState → List Effect × HeaderState
  | [], st => ([], st)
  | (env, m) :: rest, st =>
      let r := notebookRun env st m
      let (tr, st2) := runSeq rest r.state
      (r.trace ++ tr, st2)

/-- Contents of the completed header writes in a trace. -/
def headerWrites (tr : List Effect) : List String :=
  tr.filterMap (fun e => match e with
    | .writeHeader h => some h
    | _ => none)

/-- A concrete environment (notebook documents are trivial, conversion
succeeds, no extracted outputs) used to exercise the theorems below at
specific inputs. -/
def demoEnv (css : List String) (owf hwf : Bool) : Env Unit :=
  { notebookDir := "notebooks"
    notebookOutput := none
    fsExists := fun _ => true
    isDir := fun _ => true
    fileRead := fun _ => "\x7b\x7d"
    parseNb := fun _ => .ok ()
    exportNb := fun _ _ _ => .ok ("<div/>", ⟨[], css⟩)
    stash := id
    outputWriteFails := owf
    headerWriteFails := hwf }

/-- A concrete environment whose file system is empty. -/
def demoMissingEnv : Env Unit :=
  { demoEnv [] false false with fsExists := fun _ => false }

/-! ## General lemmas used throughout -/

theorem listStarts_append (pat rest : List Char) :
    listStarts pat (pat ++ rest) = true := by
  induction pat with
  | nil => rfl
  | cons p ps ih => simp [listStarts, ih]

theorem takeWhile_append_stop {p : Char → Bool} (xs : List Char) (y : Char)
    (ys : List Char) (hxs : ∀ x ∈ xs, p x = true) (hy : p y = false) :
    (xs ++ y :: ys).takeWhile p = xs := by
  induction xs with
  | nil => simp [List.takeWhile, hy]
  | cons a as ih =>
      have ha : p a = true := hxs a (List.mem_cons_self a as)
      simp only [List.cons_append, List.takeWhile_cons, ha, if_true]
      rw [ih (fun x hx => hxs x (List.mem_cons_of_mem a hx))]

theorem dropWhile_append_stop {p : Char → Bool} (xs : List Char) (y : Char)
    (ys : List Char) (hxs : ∀ x ∈ xs, p x = true) (hy : p y = false) :
    (xs ++ y :: ys).dropWhile p = y :: ys := by
  induction xs with
  | nil => simp [List.dropWhile, hy]
  | cons a as ih =>
      have ha : p a = true := hxs a (List.mem_cons_self a as)
      simp only [List.cons_append, List.dropWhile_cons, ha, if_true]
      exact ih (fun x hx => hxs x (List.mem_cons_of_mem a hx))

theorem takeWhile_all {p : Char → Bool} (xs : List Char)
    (hxs : ∀ x ∈ xs, p x = true) : xs.takeWhile p = xs := by
  induction xs with
  | nil => rfl
  | cons a as ih =>
      have ha : p a = true := hxs a (List.mem_cons_self a as)
      simp only [List.takeWhile_cons, ha, if_true]
      rw [ih (fun x hx => hxs x (List.mem_cons_of_mem a hx))]

theorem dropWhile_all {p : Char → Bool} (xs : List Char)
    (hxs : ∀ x ∈ xs, p x = true) : xs.dropWhile p = [] := by
  induction xs with
  | nil => rfl
  | cons a as ih =>
      have ha : p a = true := hxs a (List.mem_cons_self a as)
      simp only [List.dropWhile_cons, ha, if_true]
      exact ih (fun x hx => hxs x (List.mem_cons_of_mem a hx))

/-! ## Evaluation lemmas for the directive parser -/

theorem str_eq_empty_iff (s : String) : (s = "") ↔ s.data = [] := by
  constructor
  · intro h; rw [h]
  · intro h; cases s with
    | mk d => rw [show d = [] from h]

theorem dropWhile_cons_false {p : Char → Bool} (a : Char) (l : List Char)
    (h : p a = false) : (a :: l).dropWhile p = a :: l := by
  simp [List.dropWhile_cons, h]

theorem drop_len_append (l1 l2 : List Char) (n : Nat) (h : l1.length = n) :
    (l1 ++ l2).drop n = l2 := by
  subst h; exact List.drop_left l1 l2

theorem pyInt_intLit (s : String) (h : intLit s.data) :
    pyInt s = some (pyIntVal s) := by
  have hex : ∃ v, pyInt s = some v := by
    rcases h with ⟨hne, hdig⟩ | ⟨t, hd, htne, hdig⟩
    · obtain ⟨c, cs, hd⟩ := List.exists_cons_of_ne_nil hne
      have hc : isDigitCh c = true := hdig c (hd ▸ List.mem_cons_self c cs)
      have hcm : ¬ (c = '-') := fun hcm => by rw [hcm] at hc; exact absurd hc (by decide)
      refine ⟨(digitsVal (c :: cs) : Int), ?_⟩
      have hall : (c :: cs).all isDigitCh = true :=
        List.all_eq_true.mpr (fun x hx => hdig x (hd ▸ hx))
      simp only [pyInt, hd, pyIntL, if_neg hcm, hall, if_true]
    · refine ⟨-(digitsVal t : Int), ?_⟩
      have hall : (t.all isDigitCh) = true := List.all_eq_true.mpr hdig
      simp [pyInt, hd, pyIntL, hall, htne]
  obtain ⟨v, hv⟩ := hex
  rw [hv, pyIntVal, hv]
  rfl

theorem intLit_ne_empty (s : String) (h : intLit s.data) : ¬ (s = "") := by
  intro he
  rw [str_eq_empty_iff] at he
  rcases h with ⟨hne, _⟩ | ⟨t, hd, _, _⟩
  · exact hne he
  · rw [hd] at he; cases he

theorem convBound_eval (s : String) (d : Option Int)
    (h : s.data = [] ∨ intLit s.data) :
    convBound (some s) d = .ok (if s = "" then d else some (pyIntVal s)) := by
  rcases h with h | h
  · have hs : s = "" := (str_eq_empty_iff s).mpr h
    subst hs
    simp [convBound, strTruthy]
  · have hs : ¬ (s = "") := intLit_ne_empty s h
    rw [if_neg hs]
    simp [convBound, strTruthy, hs, pyInt_intLit s h]

theorem parseBound_eval (s : String) (term : Char) (r : List Char)
    (hs : s.data = [] ∨ intLit s.data)
    (ht : isDigitCh term = false) (htm : ¬ (term = '-')) :
    parseBound (s.data ++ term :: r) = (s.data, term :: r) := by
  rcases hs with h | ⟨hne, hdig⟩ | ⟨t, hd, htne, hdig⟩
  · rw [h, List.nil_append]
    simp only [parseBound, if_neg htm, List.takeWhile_cons, List.dropWhile_cons, ht,
      Bool.false_eq_true, if_false]
  · obtain ⟨c, cs, hd⟩ := List.exists_cons_of_ne_nil hne
    have hc : isDigitCh c = true := hdig c (hd ▸ List.mem_cons_self c cs)
    have hcm : ¬ (c = '-') := fun hcm => by rw [hcm] at hc; exact absurd hc (by decide)
    have htw : ((c :: cs) ++ term :: r).takeWhile isDigitCh = c :: cs :=
      takeWhile_append_stop (c :: cs) term r (fun x hx => hdig x (hd ▸ hx)) ht
    have hdw : ((c :: cs) ++ term :: r).dropWhile isDigitCh = term :: r :=
      dropWhile_append_stop (c :: cs) term r (fun x hx => hdig x (hd ▸ hx)) ht
    rw [List.cons_append] at htw hdw
    rw [hd, List.cons_append]
    simp only [parseBound, if_neg hcm, htw, hdw]
  · have htw : (t ++ term :: r).takeWhile isDigitCh = t :=
      takeWhile_append_stop t term r hdig ht
    have hdw : (t ++ term :: r).dropWhile isDigitCh = term :: r :=
      dropWhile_append_stop t term r hdig ht
    rw [hd, List.cons_append]
    simp [parseBound, htw, hdw]

theorem parseCellsTail_eval (sa sb : String) (r : List Char)
    (ha : sa.data = [] ∨ intLit sa.data) (hb : sb.data = [] ∨ intLit sb.data) :
    parseCellsTail (sa.data ++ ':' :: (sb.data ++ ']' :: r)) = some ((sa, sb), r) := by
  simp only [parseCellsTail,
    parseBound_eval sa ':' (sb.data ++ ']' :: r) ha (by decide) (by decide),
    parseBound_eval sb ']' r hb (by decide) (by decide)]

theorem parseLangTail_eval (L : String)
    (hL : ∀ c ∈ L.data, isLangCh c = true) :
    parseLangTail (L.data ++ [']']) = some (L, []) := by
  simp only [parseLangTail,
    takeWhile_append_stop L.data ']' [] hL (by decide),
    dropWhile_append_stop L.data ']' [] hL (by decide)]

theorem tailPhase_nil (srcC : List Char) :
    tailPhase srcC [] = some ⟨⟨srcC⟩, none, none, none⟩ := rfl

theorem tailPhase_lang (srcC : List Char) (L : String)
    (hL : ∀ c ∈ L.data, isLangCh c = true) :
    tailPhase srcC ("language[".data ++ (L.data ++ [']'])) =
      some ⟨⟨srcC⟩, none, none, some L⟩ := by
  simp [tailPhase, listStarts, isPyWs, parseLangTail_eval L hL]

theorem tailPhase_cells_only (srcC : List Char) (sa sb : String)
    (ha : sa.data = [] ∨ intLit sa.data) (hb : sb.data = [] ∨ intLit sb.data) :
    tailPhase srcC ("cells[".data ++ (sa.data ++ ':' :: (sb.data ++ ']' :: []))) =
      some ⟨⟨srcC⟩, some sa, some sb, none⟩ := by
  simp [tailPhase, listStarts, parseCellsTail_eval sa sb [] ha hb]

theorem tailPhase_cells_lang (srcC : List Char) (sa sb L : String)
    (ha : sa.data = [] ∨ intLit sa.data) (hb : sb.data = [] ∨ intLit sb.data)
    (hL : ∀ c ∈ L.data, isLangCh c = true) :
    tailPhase srcC ("cells[".data ++
        (sa.data ++ ':' :: (sb.data ++ ']' :: ' ' :: ("language[".data ++ (L.data ++ [']']))))) =
      some ⟨⟨srcC⟩, some sa, some sb, some L⟩ := by
  simp [tailPhase, listStarts, isPyWs,
    parseCellsTail_eval sa sb
      (' ' :: 'l' :: 'a' :: 'n' :: 'g' :: 'u' :: 'a' :: 'g' :: 'e' :: '[' :: (L.data ++ [']']))
      ha hb,
    parseLangTail_eval L hL]

theorem formatMatchL_src_space (srcC tail : List Char) (h1 : srcC ≠ [])
    (h2 : ∀ c ∈ srcC, isPyWs c = false) :
    formatMatchL (srcC ++ ' ' :: tail) = tailPhase srcC (tail.dropWhile isPyWs) := by
  have hws : (srcC ++ ' ' :: tail).dropWhile isPyWs = srcC ++ ' ' :: tail := by
    obtain ⟨c, cs, hd⟩ := List.exists_cons_of_ne_nil h1
    rw [hd, List.cons_append]
    exact dropWhile_cons_false c _ (h2 c (hd ▸ List.mem_cons_self c cs))
  have htk : (srcC ++ ' ' :: tail).takeWhile (fun c => !isPyWs c) = srcC :=
    takeWhile_append_stop _ _ _ (fun x hx => by simp [h2 x hx]) (by decide)
  have hdr : (srcC ++ ' ' :: tail).dropWhile (fun c => !isPyWs c) = ' ' :: tail :=
    dropWhile_append_stop _ _ _ (fun x hx => by simp [h2 x hx]) (by decide)
  simp only [formatMatchL, hws, htk, hdr, if_neg h1]
  congr 1

theorem formatMatchL_src_only (srcC : List Char) (h1 : srcC ≠ [])
    (h2 : ∀ c ∈ srcC, isPyWs c = false) :
    formatMatchL srcC = tailPhase srcC [] := by
  have hws : srcC.dropWhile isPyWs = srcC := by
    obtain ⟨c, cs, hd⟩ := List.exists_cons_of_ne_nil h1
    rw [hd]
    exact dropWhile_cons_false c _ (h2 c (hd ▸ List.mem_cons_self c cs))
  have htk : srcC.takeWhile (fun c => !isPyWs c) = srcC :=
    takeWhile_all _ (fun x hx => by simp [h2 x hx])
  have hdr : srcC.dropWhile (fun c => !isPyWs c) = [] :=
    dropWhile_all _ (fun x hx => by simp [h2 x hx])
  simp only [formatMatchL, hws, htk, hdr, if_neg h1]
  rfl

/-! ## Matching well-formed directives -/

theorem formatMatch_full (src sa sb L : String)
    (hsrc1 : src.data ≠ []) (hsrc2 : ∀ c ∈ src.data, isPyWs c = false)
    (ha : sa.data = [] ∨ intLit sa.data) (hb : sb.data = [] ∨ intLit sb.data)
    (hL : ∀ c ∈ L.data, isLangCh c = true) :
    formatMatch (src ++ " cells[" ++ sa ++ ":" ++ sb ++ "] language[" ++ L ++ "]") =
      some ⟨src, some sa, some sb, some L⟩ := by
  have harg : (src ++ " cells[" ++ sa ++ ":" ++ sb ++ "] language[" ++ L ++ "]").data =
      src.data ++ ' ' :: ("cells[".data ++
        (sa.data ++ ':' :: (sb.data ++ ']' :: ' ' :: ("language[".data ++ (L.data ++ [']']))))) := by
    simp [String.data_append]
  have hT : ("cells[".data ++
      (sa.data ++ ':' :: (sb.data ++ ']' :: ' ' :: ("language[".data ++
        (L.data ++ [']']))))).dropWhile isPyWs =
      "cells[".data ++
        (sa.data ++ ':' :: (sb.data ++ ']' :: ' ' :: ("language[".data ++ (L.data ++ [']'])))) := by
    rw [show "cells[".data = 'c' :: "ells[".data from rfl, List.cons_append]
    exact dropWhile_cons_false _ _ (by decide)
  rw [formatMatch, harg, formatMatchL_src_space _ _ hsrc1 hsrc2, hT]
  rw [show ("cells[".data ++
      (sa.data ++ ':' :: (sb.data ++ ']' :: ' ' :: ("language[".data ++ (L.data ++ [']']))))) =
      ("cells[".data ++
      (sa.data ++ ':' :: (sb.data ++ ']' :: ' ' ::
        ('l' :: 'a' :: 'n' :: 'g' :: 'u' :: 'a' :: 'g' :: 'e' :: '[' :: (L.data ++ [']']))))) from rfl]
  rw [show (' ' :: ('l' :: 'a' :: 'n' :: 'g' :: 'u' :: 'a' :: 'g' :: 'e' :: '[' ::
      (L.data ++ [']']))) = (' ' :: ("language[".data ++ (L.data ++ [']']))) from rfl]
  rw [tailPhase_cells_lang src.data sa sb L ha hb hL]

theorem formatMatch_cells (src sa sb : String)
    (hsrc1 : src.data ≠ []) (hsrc2 : ∀ c ∈ src.data, isPyWs c = false)
    (ha : sa.data = [] ∨ intLit sa.data) (hb : sb.data = [] ∨ intLit sb.data) :
    formatMatch (src ++ " cells[" ++ sa ++ ":" ++ sb ++ "]") =
      some ⟨src, some sa, some sb, none⟩ := by
  have harg : (src ++ " cells[" ++ sa ++ ":" ++ sb ++ "]").data =
      src.data ++ ' ' :: ("cells[".data ++ (sa.data ++ ':' :: (sb.data ++ ']' :: []))) := by
    simp [String.data_append]
  have hT : ("cells[".data ++
      (sa.data ++ ':' :: (sb.data ++ ']' :: []))).dropWhile isPyWs =
      "cells[".data ++ (sa.data ++ ':' :: (sb.data ++ ']' :: [])) := by
    rw [show "cells[".data = 'c' :: "ells[".data from rfl, List.cons_append]
    exact dropWhile_cons_false _ _ (by decide)
  rw [formatMatch, harg, formatMatchL_src_space _ _ hsrc1 hsrc2, hT,
    tailPhase_cells_only src.data sa sb ha hb]

theorem formatMatch_lang (src L : String)
    (hsrc1 : src.data ≠ []) (hsrc2 : ∀ c ∈ src.data, isPyWs c = false)
    (hL : ∀ c ∈ L.data, isLangCh c = true) :
    formatMatch (src ++ " language[" ++ L ++ "]") = some ⟨src, none, none, some L⟩ := by
  have harg : (src ++ " language[" ++ L ++ "]").data =
      src.data ++ ' ' :: ("language[".data ++ (L.data ++ [']'])) := by
    simp [String.data_append]
  have hT : ("language[".data ++ (L.data ++ [']'])).dropWhile isPyWs =
      "language[".data ++ (L.data ++ [']']) := by
    rw [show "language[".data = 'l' :: "anguage[".data from rfl, List.cons_append]
    exact dropWhile_cons_false _ _ (by decide)
  rw [formatMatch, harg, formatMatchL_src_space _ _ hsrc1 hsrc2, hT,
    tailPhase_lang src.data L hL]

theorem formatMatch_bare (src : String)
    (hsrc1 : src.data ≠ []) (hsrc2 : ∀ c ∈ src.data, isPyWs c = false) :
    formatMatch src = some ⟨src, none, none, none⟩ := by
  rw [formatMatch, formatMatchL_src_only src.data hsrc1 hsrc2, tailPhase_nil]

/-! ## Claim C1 -/

/-- C1: for every directive of the form `src cells[a:b] language[L]` that
matches the grammar (`src` a nonempty whitespace-free token, the bounds
integer literals or empty, `L` over the language character class),
parsing recovers exactly `src`, the integer values of `a` and `b`, and
`L`; when the start bound, the end bound, or the whole `language[...]`
clause is omitted the parsed values default to `0`, `None` and `None`
respectively (and a bare `src` parses as `(src, 0, None, None)`). -/
theorem notebook_parse_valid_directive (src sa sb L : String)
    (hsrc1 : src ≠ "") (hsrc2 : ∀ c ∈ src.data, isPyWs c = false)
    (ha : sa.data = [] ∨ intLit sa.data) (hb : sb.data = [] ∨ intLit sb.data)
    (hL : ∀ c ∈ L.data, isLangCh c = true) :
    notebookParse (src ++ " cells[" ++ sa ++ ":" ++ sb ++ "] language[" ++ L ++ "]")
        = .ok ⟨src, startDefault sa, stopDefault sb, some L⟩
    ∧ notebookParse (src ++ " cells[" ++ sa ++ ":" ++ sb ++ "]")
        = .ok ⟨src, startDefault sa, stopDefault sb, none⟩
    ∧ notebookParse (src ++ " language[" ++ L ++ "]")
        = .ok ⟨src, 0, none, some L⟩
    ∧ notebookParse src = .ok ⟨src, 0, none, none⟩ := by
  have hsrc1' : src.data ≠ [] := fun h => hsrc1 ((str_eq_empty_iff src).mpr h)
  refine ⟨?_, ?_, ?_, ?_⟩
  · simp only [notebookParse, formatMatch_full src sa sb L hsrc1' hsrc2 ha hb hL,
      convBound_eval sa (some 0) ha, convBound_eval sb none hb, startDefault, stopDefault]
    by_cases hsa : sa = "" <;> by_cases hsb : sb = "" <;> simp [hsa, hsb]
  · simp only [notebookParse, formatMatch_cells src sa sb hsrc1' hsrc2 ha hb,
      convBound_eval sa (some 0) ha, convBound_eval sb none hb, startDefault, stopDefault]
    by_cases hsa : sa = "" <;> by_cases hsb : sb = "" <;> simp [hsa, hsb]
  · simp [notebookParse, formatMatch_lang src L hsrc1' hsrc2 hL, convBound, strTruthy]
  · simp [notebookParse, formatMatch_bare src hsrc1' hsrc2, convBound, strTruthy]

/-- Witness for C1 at a concrete directive. -/
theorem notebook_parse_valid_directive_witness :
    notebookParse "nb.ipynb cells[-2:7] language[ipython3]"
        = .ok ⟨"nb.ipynb", -2, some 7, some "ipython3"⟩
    ∧ notebookParse "nb.ipynb" = .ok ⟨"nb.ipynb", 0, none, none⟩ := by
  have h := notebook_parse_valid_directive "nb.ipynb" "-2" "7" "ipython3"
    (by decide) (by decide)
    (Or.inr (Or.inr ⟨['2'], by decide, by decide, by decide⟩))
    (Or.inr (Or.inl ⟨by decide, by decide⟩))
    (by decide)
  refine ⟨?_, h.2.2.2⟩
  have h1 := h.1
  rw [show ("nb.ipynb" ++ " cells[" ++ "-2" ++ ":" ++ "7" ++ "] language[" ++ "ipython3" ++ "]")
      = "nb.ipynb cells[-2:7] language[ipython3]" from rfl] at h1
  rw [h1]
  rfl

/-! ## Claims C5 and C10 -/

theorem occursIn_length (p s : List Char) (h : occursIn p s) :
    p.length ≤ s.length := by
  obtain ⟨l, r, rfl⟩ := h
  simp only [List.length_append]
  omega

/-- C5: every markup string rejected by the directive regex makes
`notebook` raise a `ValueError` whose message names the expected
directive syntax (the `SYNTAX` string appears verbatim in the message);
no field is silently defaulted. -/
theorem notebook_parse_nonmatching_raises (s : String)
    (h : formatMatch s = none) :
    notebookParse s = .error (.valueError syntaxErrMsg)
    ∧ occursIn SYNTAX.data syntaxErrMsg.data := by
  refine ⟨by simp [notebookParse, h], ?_⟩
  exact ⟨"Error processing input, expected syntax: ".data, [],
    by simp [syntaxErrMsg, String.data_append]⟩

/-- Witness for C5: the two malformed directives from the specification,
an empty markup (missing path) and non-numeric cell bounds, are rejected
by the regex and raise the expected-syntax error. -/
theorem notebook_parse_nonmatching_raises_witness :
    notebookParse "" = .error (.valueError syntaxErrMsg)
    ∧ notebookParse "file.ipynb cells[abc:2]" = .error (.valueError syntaxErrMsg)
    ∧ occursIn SYNTAX.data syntaxErrMsg.data :=
  ⟨(notebook_parse_nonmatching_raises "" (by decide)).1,
   (notebook_parse_nonmatching_raises "file.ipynb cells[abc:2]" (by decide)).1,
   (notebook_parse_nonmatching_raises "" (by decide)).2⟩

/-- C10: the directive `file.ipynb cells[-:2]` is accepted by the regex
(the bound pattern `-?[0-9]*` matches the bare `-`), yet parsing fails
with the unhandled `int('-')` conversion error, whose message does not
contain the expected-syntax text. -/
theorem notebook_parse_dash_bound_int_error :
    formatMatch "file.ipynb cells[-:2]"
        = some ⟨"file.ipynb", some "-", some "2", none⟩
    ∧ notebookParse "file.ipynb cells[-:2]"
        = .error (.valueError (intErrMsg "-"))
    ∧ ¬ occursIn SYNTAX.data (intErrMsg "-").data := by
  refine ⟨by decide, by rfl, fun h => ?_⟩
  have hlen := occursIn_length _ _ h
  revert hlen
  decide

/-! ## Claim C2 -/

/-- C2: `SubCell.preprocess` is a pure, non-mutating transform: the
returned document's cell sequence is the Python slice `[start:stop]` of
the original cell sequence and the passed-in document is unchanged;
moreover the slice has Python semantics: `[:]` (equivalently `[0:]` with
no end) is the identity, nonnegative bounds give `take`/`drop` with
implicit clamping, an end bound at or past the length equals an absent
end, and a negative start `-k` counts from the end. -/
theorem subcell_preprocess_slice_pure {α : Type} (start : Int)
    (stop : Option Int) (nb : Notebook α) :
    ((SubCell.preprocess start stop nb).1.cells = pySlice start stop nb.cells)
    ∧ ((SubCell.preprocess start stop nb).2 = nb)
    ∧ (∀ l : List α, pySlice 0 none l = l)
    ∧ (∀ (l : List α) (a b : Nat),
        pySlice (a : Int) (some (b : Int)) l = (l.take b).drop a)
    ∧ (∀ (l : List α) (a : Int) (b : Nat), l.length ≤ b →
        pySlice a (some (b : Int)) l = pySlice a none l)
    ∧ (∀ (l : List α) (k : Nat), 0 < k → k ≤ l.length →
        pySlice (-(k : Int)) none l = l.drop (l.length - k)) := by
  refine ⟨rfl, rfl, ?_, ?_, ?_, ?_⟩
  · intro l
    simp [pySlice, pySliceIdx, List.take_length]
  · intro l a b
    rw [List.drop_take]
    simp only [pySlice, pySliceIdx]
    rw [if_neg (by omega), if_neg (by omega)]
    simp only [Int.toNat_ofNat]
    by_cases han : a ≤ l.length
    · rw [min_eq_left han]
      exact (List.take_eq_take).mpr (by
        rw [List.length_drop]
        omega)
    · rw [min_eq_right (le_of_not_le han)]
      rw [List.drop_eq_nil_of_le (le_refl l.length),
        List.drop_eq_nil_of_le (le_of_not_le han)]
      simp
  · intro l a b hb
    simp only [pySlice, pySliceIdx]
    rw [if_neg (by omega)]
    simp only [Int.toNat_ofNat]
    rw [min_eq_right hb]
  · intro l k hk hkn
    simp only [pySlice, pySliceIdx]
    rw [if_pos (by omega)]
    have h1 : (max 0 ((l.length : Int) + -(k : Int))).toNat = l.length - k := by omega
    rw [h1]
    have h2 : l.length - (l.length - k) = k := by omega
    rw [h2]
    exact List.take_of_length_le (by rw [List.length_drop]; omega)

/-- Witness for C2: slicing `[2:5]` of a 10-cell document yields cells
2,3,4 without touching the original, and `[-2:]` yields the last two. -/
theorem subcell_preprocess_slice_pure_witness :
    (SubCell.preprocess 2 (some 5) (Notebook.mk [0,1,2,3,4,5,6,7,8,9])).1.cells = [2,3,4]
    ∧ (SubCell.preprocess 2 (some 5) (Notebook.mk [0,1,2,3,4,5,6,7,8,9])).2
        = Notebook.mk [0,1,2,3,4,5,6,7,8,9]
    ∧ pySlice (-(2 : Int)) none [0,1,2,3,4,5,6,7,8,9] = [8,9] := by
  have h := subcell_preprocess_slice_pure (α := Nat) 2 (some 5)
    (Notebook.mk [0,1,2,3,4,5,6,7,8,9])
  have h6 := h.2.2.2.2.2 [0,1,2,3,4,5,6,7,8,9] 2 (by decide) (by decide)
  push_cast at h6
  refine ⟨?_, h.2.1, ?_⟩
  · rw [h.1]; decide
  · rw [h6]; decide

/-! ## Claim C9 -/

/-- C9: `custom_highlighter` invokes the underlying highlighting call
with an `HtmlFormatter` whose CSS class is `highlight-ipynb`, rewrites
plain `<pre>` tags of the result to carry the `ipynb` class, and
substitutes the default language `ipython` when the language argument is
absent or empty (otherwise the given language is passed unchanged). -/
theorem custom_highlighter_spec (hl : String → HtmlFormatter → String → String)
    (source : String) (language : Option String) :
    custom_highlighter hl source language =
      pyStrReplace (hl source ⟨"highlight-ipynb"⟩ (pyLangDefault language))
        "<pre>" "<pre class=\x22ipynb\x22>"
    ∧ pyLangDefault none = "ipython"
    ∧ pyLangDefault (some "") = "ipython"
    ∧ (∀ l : String, l ≠ "" → pyLangDefault (some l) = l)
    ∧ pyStrReplace "<pre>x</pre>" "<pre>" "<pre class=\x22ipynb\x22>"
        = "<pre class=\x22ipynb\x22>x</pre>" := by
  refine ⟨rfl, rfl, rfl, ?_, by decide⟩
  intro l hne
  simp [pyLangDefault, hne]

/-- Witness for C9 at a concrete highlighting call. -/
theorem custom_highlighter_spec_witness :
    custom_highlighter (fun s f l => l ++ "|" ++ f.cssclass ++ "|<pre>" ++ s ++ "</pre>")
        "x=1" none = "ipython|highlight-ipynb|<pre class=\x22ipynb\x22>x=1</pre>"
    ∧ pyLangDefault (some "python") = "python" := by
  have h := custom_highlighter_spec
    (fun s f l => l ++ "|" ++ f.cssclass ++ "|<pre>" ++ s ++ "</pre>") "x=1" none
  refine ⟨?_, h.2.2.2.1 "python" (by decide)⟩
  rw [h.1]
  decide

/-! ## Claim C4 -/

/-- Counterexample to C4: the single-pass removal of `../` substrings is
not a normalization of parent-directory traversal.  For the entry name
`....//secret` the removal itself manufactures a `../` segment and the
computed write path escapes the hardcoded `output` directory; an
absolute entry name bypasses the join entirely. -/
theorem write_path_escapes_output :
    pyStrReplace "....//secret" "../" "" = "../secret"
    ∧ writePath "....//secret" = "secret"
    ∧ writePath "/etc/passwd" = "/etc/passwd"
    ∧ ¬ underOutput "secret"
    ∧ ¬ underOutput "/etc/passwd" := by
  refine ⟨by decide, by decide, by decide, ?_, ?_⟩
  · rintro (h | h)
    · exact absurd h (by decide)
    · exact absurd h (by decide)
  · rintro (h | h)
    · exact absurd h (by decide)
    · exact absurd h (by decide)

theorem splitOnChar_ne_nil (sep : Char) (l : List Char) :
    splitOnChar sep l ≠ [] := by
  cases l with
  | nil => simp [splitOnChar]
  | cons c rest =>
      cases h : splitOnChar sep rest with
      | nil => simp [splitOnChar, h]
      | cons g gs =>
          simp only [splitOnChar, h]
          split <;> simp

theorem splitOnChar_append_nosep (sep : Char) (xs ys : List Char)
    (h : ∀ c ∈ xs, ¬ c = sep) :
    splitOnChar sep (xs ++ sep :: ys) = xs :: splitOnChar sep ys := by
  induction xs with
  | nil =>
      simp only [List.nil_append]
      cases hy : splitOnChar sep ys with
      | nil => exact absurd hy (splitOnChar_ne_nil sep ys)
      | cons g gs => simp [splitOnChar, hy]
  | cons c cs ih =>
      have hc : ¬ c = sep := h c (List.mem_cons_self c cs)
      have ih2 := ih (fun x hx => h x (List.mem_cons_of_mem c hx))
      have step : splitOnChar sep ((c :: cs) ++ sep :: ys) =
          match splitOnChar sep (cs ++ sep :: ys) with
          | [] => [[]]
          | g :: gs => if c = sep then [] :: g :: gs else (c :: g) :: gs := rfl
      rw [step, ih2]
      simp [hc]

theorem normComps_no_dotdot (isAbs : Bool) (comps : List (List Char))
    (h : ['.', '.'] ∉ comps) (acc : List (List Char)) :
    ∃ app, normComps isAbs acc comps = acc ++ app := by
  induction comps generalizing acc with
  | nil => exact ⟨[], by simp [normComps]⟩
  | cons comp rest ih =>
      have hcomp : comp ≠ ['.', '.'] := fun hc => h (hc ▸ List.mem_cons_self comp rest)
      have hrest : ['.', '.'] ∉ rest := fun hr => h (List.mem_cons_of_mem comp hr)
      by_cases h1 : comp = [] ∨ comp = ['.']
      · obtain ⟨app, happ⟩ := ih hrest acc
        exact ⟨app, by simp only [normComps, if_pos h1]; exact happ⟩
      · obtain ⟨app, happ⟩ := ih hrest (acc ++ [comp])
        refine ⟨[comp] ++ app, ?_⟩
        simp only [normComps, if_neg h1, if_pos (Or.inl hcomp)]
        rw [happ, List.append_assoc]

theorem posixNormpath_under_output (cl : String)
    (h2 : ['.', '.'] ∉ splitOnChar '/' cl.data) :
    underOutput (posixNormpath ⟨"output".data ++ '/' :: cl.data⟩) := by
  obtain ⟨app, happ⟩ :=
    normComps_no_dotdot false (splitOnChar '/' cl.data) h2 ["output".data]
  have hsplit : splitOnChar '/' ("output".data ++ '/' :: cl.data) =
      "output".data :: splitOnChar '/' cl.data :=
    splitOnChar_append_nosep '/' _ _ (by decide)
  have hrun : normComps false [] ("output".data :: splitOnChar '/' cl.data) =
      ["output".data] ++ app := by
    have step : normComps false [] ("output".data :: splitOnChar '/' cl.data) =
        normComps false ["output".data] (splitOnChar '/' cl.data) := by
      simp only [normComps,
        if_neg (by decide : ¬(("output".data : List Char) = [] ∨
          ("output".data : List Char) = ['.'])),
        if_pos (Or.inl (by decide : ("output".data : List Char) ≠ ['.', '.']))]
      rfl
    rw [step, happ]
  have hred : posixNormpath ⟨"output".data ++ '/' :: cl.data⟩ =
      (if joinWithChar '/'
            (normComps false [] (splitOnChar '/' ("output".data ++ '/' :: cl.data))) = []
        then "."
        else ⟨joinWithChar '/'
            (normComps false [] (splitOnChar '/' ("output".data ++ '/' :: cl.data)))⟩) := rfl
  rw [hred, hsplit, hrun]
  cases app with
  | nil =>
      rw [List.append_nil]
      rw [show joinWithChar '/' ["output".data] = "output".data from rfl]
      rw [if_neg (by decide : ¬(("output".data : List Char) = []))]
      exact Or.inl rfl
  | cons a as =>
      have hjw : joinWithChar '/' (["output".data] ++ a :: as) =
          "output/".data ++ joinWithChar '/' (a :: as) := rfl
      rw [hjw]
      rw [if_neg (by simp)]
      exact Or.inr (listStarts_append _ _)

/-- C4 (amended): for each entry `name`, the write path is
`normpath(join('output', name with one pass of `../` removal))`; it lies
under the `output` prefix provided the processed name is relative and
none of its remaining components is `..`. -/
theorem write_path_under_output (name : String)
    (h1 : listStarts "/".data (pyStrReplace name "../" "").data = false)
    (h2 : ['.', '.'] ∉ splitOnChar '/' (pyStrReplace name "../" "").data) :
    writePath name = posixNormpath (pyJoin "output" (pyStrReplace name "../" ""))
    ∧ underOutput (writePath name) := by
  refine ⟨rfl, ?_⟩
  have hjoin : pyJoin "output" (pyStrReplace name "../" "") =
      "output" ++ "/" ++ pyStrReplace name "../" "" := by
    rw [pyJoin, if_neg (by rw [h1]; exact Bool.false_ne_true), if_neg (by decide),
      if_neg (by decide)]
  have hdata : (pyJoin "output" (pyStrReplace name "../" "")).data =
      "output".data ++ '/' :: (pyStrReplace name "../" "").data := by
    rw [hjoin]
    simp [String.data_append]
  have hstr : pyJoin "output" (pyStrReplace name "../" "") =
      ⟨"output".data ++ '/' :: (pyStrReplace name "../" "").data⟩ := by
    rw [← hdata]
  show underOutput (posixNormpath (pyJoin "output" (pyStrReplace name "../" "")))
  rw [hstr]
  exact posixNormpath_under_output (pyStrReplace name "../" "") h2

/-- Witness for the amended C4 at a well-behaved entry name. -/
theorem write_path_under_output_witness :
    underOutput (writePath "imgs/plot.png")
    ∧ writePath "imgs/plot.png" = "output/imgs/plot.png" :=
  ⟨(write_path_under_output "imgs/plot.png" (by decide) (by decide)).2, by decide⟩

/-! ## Claim C8: decimal renderings and filename uniqueness -/

theorem digitsVal_append (xs : List Char) (c : Char) :
    digitsVal (xs ++ [c]) = 10 * digitsVal xs + (c.toNat - 48) := by
  simp [digitsVal, List.foldl_append]

theorem digitCh_toNat (d : Nat) (h : d < 10) : (digitCh d).toNat - 48 = d := by
  interval_cases d <;> rfl

theorem digitCh_isDigit (d : Nat) (h : d < 10) : isDigitCh (digitCh d) = true := by
  interval_cases d <;> rfl

theorem natStrAux_spec (fuel : Nat) : ∀ n : Nat, n < fuel →
    digitsVal (natStrAux fuel n) = n
    ∧ natStrAux fuel n ≠ []
    ∧ ∀ c ∈ natStrAux fuel n, isDigitCh c = true := by
  induction fuel with
  | zero => intro n h; omega
  | succ f ih =>
      intro n h
      by_cases hn : n < 10
      · refine ⟨?_, by simp [natStrAux, hn], ?_⟩
        · simp only [natStrAux, if_pos hn]
          have : digitsVal [digitCh n] = (digitCh n).toNat - 48 := by simp [digitsVal]
          rw [this, digitCh_toNat n hn]
        · intro c hc
          simp only [natStrAux, if_pos hn, List.mem_singleton] at hc
          rw [hc]
          exact digitCh_isDigit n hn
      · have hdiv : n / 10 < f := by
          have h1 : n / 10 < n := Nat.div_lt_self (by omega) (by omega)
          omega
        obtain ⟨ihv, ihne, ihd⟩ := ih (n / 10) hdiv
        simp only [natStrAux, if_neg hn]
        refine ⟨?_, by simp, ?_⟩
        · rw [digitsVal_append, ihv, digitCh_toNat (n % 10) (Nat.mod_lt n (by omega))]
          omega
        · intro c hc
          rcases List.mem_append.mp hc with hc | hc
          · exact ihd c hc
          · rw [List.mem_singleton.mp hc]
            exact digitCh_isDigit _ (Nat.mod_lt n (by omega))

theorem natStr_digits (n : Nat) :
    (∀ c ∈ (natStr n).data, isDigitCh c = true) ∧ (natStr n).data ≠ [] := by
  obtain ⟨_, h2, h3⟩ := natStrAux_spec (n + 1) n (by omega)
  exact ⟨h3, h2⟩

theorem natStr_inj (m n : Nat) (h : natStr m = natStr n) : m = n := by
  have hm := (natStrAux_spec (m + 1) m (by omega)).1
  have hn := (natStrAux_spec (n + 1) n (by omega)).1
  have hd : (natStr m).data = (natStr n).data := by rw [h]
  rw [show (natStr m).data = natStrAux (m + 1) m from rfl,
    show (natStr n).data = natStrAux (n + 1) n from rfl] at hd
  rw [← hm, ← hn, hd]

/-- Uniqueness of the decomposition digit-run, non-digit, rest. -/
theorem digit_run_unique (a1 : List Char) :
    ∀ (a2 r1 r2 : List Char) (b1 b2 : Char),
    (∀ c ∈ a1, isDigitCh c = true) → (∀ c ∈ a2, isDigitCh c = true) →
    isDigitCh b1 = false → isDigitCh b2 = false →
    a1 ++ b1 :: r1 = a2 ++ b2 :: r2 →
    a1 = a2 ∧ b1 = b2 ∧ r1 = r2 := by
  induction a1 with
  | nil =>
      intro a2 r1 r2 b1 b2 ha1 ha2 hb1 hb2 h
      cases a2 with
      | nil =>
          simp only [List.nil_append] at h
          exact ⟨rfl, (List.cons.injEq .. ▸ h).1, (List.cons.injEq .. ▸ h).2⟩
      | cons x xs =>
          simp only [List.nil_append, List.cons_append, List.cons.injEq] at h
          have hx : isDigitCh x = true := ha2 x (List.mem_cons_self x xs)
          rw [← h.1] at hx
          rw [hx] at hb1
          cases hb1
  | cons x xs ih =>
      intro a2 r1 r2 b1 b2 ha1 ha2 hb1 hb2 h
      cases a2 with
      | nil =>
          simp only [List.cons_append, List.nil_append, List.cons.injEq] at h
          have hx : isDigitCh x = true := ha1 x (List.mem_cons_self x xs)
          rw [h.1] at hx
          rw [hx] at hb2
          cases hb2
      | cons y ys =>
          simp only [List.cons_append, List.cons.injEq] at h
          obtain ⟨e1, e2, e3⟩ := ih ys r1 r2 b1 b2
            (fun c hc => ha1 c (List.mem_cons_of_mem x hc))
            (fun c hc => ha2 c (List.mem_cons_of_mem y hc))
            hb1 hb2 h.2
          exact ⟨by rw [h.1, e1], e2, e3⟩

/-- C8: the output-extraction template is built from the source path and
the configured output directory, parameterized by the unique key, the
cell index and the output index (second conjunct), and its instantiation
assigns distinct filenames to any two outputs from different cells or
different outputs of the same cell (first conjunct; extensions start
with a dot as the exporter produces them). -/
theorem output_filenames_distinct (stem key : String) (c1 i1 c2 i2 : Nat)
    (e1 e2 : String)
    (he1 : e1.data.head? = some '.') (he2 : e2.data.head? = some '.')
    (hne : ¬ (c1 = c2 ∧ i1 = i2)) :
    applyTmpl stem key c1 i1 e1 ≠ applyTmpl stem key c2 i2 e2
    ∧ (∀ {Nb : Type} (env : Env Nb) (d : ParsedDirective) (nbPath out : String),
        env.notebookOutput = some out →
        (mkConfig env d nbPath).outputFilenameTmpl =
          some (tmplStem out d.src nbPath ++
            "_\x7bunique_key\x7d_\x7bcell_index\x7d_\x7bindex\x7d\x7bextension\x7d")) := by
  constructor
  · intro h
    have hd := congrArg String.data h
    simp only [applyTmpl, String.data_append, List.append_assoc] at hd
    have hd2 := List.append_cancel_left hd
    simp only [show ("_" : String).data = ['_'] from rfl, List.singleton_append,
      List.cons.injEq] at hd2
    have hd3 := List.append_cancel_left hd2.2
    simp only [List.singleton_append, List.cons.injEq] at hd3
    obtain ⟨t1, ht1⟩ : ∃ t, e1.data = '.' :: t := by
      cases he : e1.data with
      | nil => rw [he] at he1; cases he1
      | cons c cs =>
          rw [he] at he1
          simp only [List.head?_cons, Option.some.injEq] at he1
          exact ⟨cs, by rw [he1]⟩
    obtain ⟨t2, ht2⟩ : ∃ t, e2.data = '.' :: t := by
      cases he : e2.data with
      | nil => rw [he] at he2; cases he2
      | cons c cs =>
          rw [he] at he2
          simp only [List.head?_cons, Option.some.injEq] at he2
          exact ⟨cs, by rw [he2]⟩
    obtain ⟨ec1, _, erest⟩ := digit_run_unique (natStr c1).data (natStr c2).data
      ((natStr i1).data ++ e1.data) ((natStr i2).data ++ e2.data) '_' '_'
      (natStr_digits c1).1 (natStr_digits c2).1 (by decide) (by decide) hd3.2
    rw [ht1, ht2] at erest
    obtain ⟨ei1, _, _⟩ := digit_run_unique (natStr i1).data (natStr i2).data t1 t2 '.' '.'
      (natStr_digits i1).1 (natStr_digits i2).1 (by decide) (by decide) erest
    have hc : c1 = c2 := natStr_inj c1 c2 (by
      cases hnc1 : natStr c1 with
      | mk d1 => cases hnc2 : natStr c2 with
        | mk d2 =>
            rw [hnc1, hnc2] at ec1
            rw [show (String.mk d1).data = d1 from rfl,
              show (String.mk d2).data = d2 from rfl] at ec1
            rw [ec1])
    have hi : i1 = i2 := natStr_inj i1 i2 (by
      cases hni1 : natStr i1 with
      | mk d1 => cases hni2 : natStr i2 with
        | mk d2 =>
            rw [hni1, hni2] at ei1
            rw [show (String.mk d1).data = d1 from rfl,
              show (String.mk d2).data = d2 from rfl] at ei1
            rw [ei1])
    exact hne ⟨hc, hi⟩
  · intro Nb env d nbPath out hout
    simp [mkConfig, hout]

/-- Witness for C8: two outputs of different cells resp. outputs get
distinct filenames. -/
theorem output_filenames_distinct_witness :
    applyTmpl "../images/nb" "k" 0 0 ".png" ≠ applyTmpl "../images/nb" "k" 1 0 ".png"
    ∧ applyTmpl "../images/nb" "k" 1 0 ".png" ≠ applyTmpl "../images/nb" "k" 1 1 ".png" :=
  ⟨(output_filenames_distinct "../images/nb" "k" 0 0 1 0 ".png" ".png"
      (by decide) (by decide) (by decide)).1,
   (output_filenames_distinct "../images/nb" "k" 1 0 1 1 ".png" ".png"
      (by decide) (by decide) (by decide)).1⟩

/-! ## Header-state lemmas for claims C3, C6 and C7 -/

theorem headerWrites_append (a b : List Effect) :
    headerWrites (a ++ b) = headerWrites a ++ headerWrites b := by
  simp [headerWrites, List.filterMap_append]

theorem headerWrites_outputEffects (isDir : String → Bool)
    (outs : List (String × String)) :
    headerWrites (outputEffects isDir outs) = [] := by
  induction outs with
  | nil => rfl
  | cons nd rest ih =>
      have hsplit : outputEffects isDir (nd :: rest) =
          ((if isDir (pyDirname (writePath nd.1)) then []
            else [Effect.mkDirs (pyDirname (writePath nd.1))]) ++
            [Effect.writeFile (writePath nd.1) nd.2]) ++ outputEffects isDir rest := by
        simp [outputEffects]
      rw [hsplit, headerWrites_append, headerWrites_append, ih]
      by_cases hd : isDir (pyDirname (writePath nd.1)) <;> simp [hd, headerWrites]

theorem headerWrites_nil : headerWrites [] = [] := rfl

theorem headerWrites_readFile (p : String) (l : List Effect) :
    headerWrites (Effect.readFile p :: l) = headerWrites l := rfl

theorem headerWrites_printMsg (m : String) (l : List Effect) :
    headerWrites (Effect.printMsg m :: l) = headerWrites l := rfl

theorem headerWrites_writeHeader (h : String) (l : List Effect) :
    headerWrites (Effect.writeHeader h :: l) = h :: headerWrites l := rfl

theorem mem_headerWrites (h : String) (tr : List Effect) :
    h ∈ headerWrites tr ↔ Effect.writeHeader h ∈ tr := by
  simp only [headerWrites, List.mem_filterMap]
  constructor
  · rintro ⟨e, he, hm⟩
    cases e <;> simp_all
  · intro hm
    exact ⟨Effect.writeHeader h, hm, rfl⟩

theorem headerStep_cases (wf : Bool) (css : List String) (st : HeaderState) :
    (st.headerSaved = true ∧ headerStep wf css st = ([], st, .ok ()))
    ∨ (st.headerSaved = false ∧ wf = true ∧
        headerStep wf css st = ([Effect.printMsg headerMsg], st,
          .error (.ioError "could not open _nb_header.html for writing")))
    ∨ (st.headerSaved = false ∧ wf = false ∧
        headerStep wf css st =
          ([Effect.printMsg headerMsg, Effect.writeHeader (buildHeader css)],
            ⟨true, some (buildHeader css)⟩, .ok ())) := by
  by_cases h1 : st.headerSaved
  · exact Or.inl ⟨h1, by simp [headerStep, h1]⟩
  · by_cases h2 : wf
    · exact Or.inr (Or.inl ⟨by simp [h1], h2, by simp [headerStep, h1, h2]⟩)
    · exact Or.inr (Or.inr ⟨by simp [h1], by simp [h2], by simp [headerStep, h1, h2]⟩)

/-- Characterization of one run with respect to the header state: either
no header write happens and the header state is returned unchanged, or
the flag was clear, exactly one header write happens, and the new state
records it; moreover any error leaves the header state unchanged. -/
theorem notebookRun_header_char {Nb : Type} (env : Env Nb) (st : HeaderState)
    (markup : String) :
    ((headerWrites (notebookRun env st markup).trace = []
        ∧ (notebookRun env st markup).state = st)
      ∨ (∃ h, st.headerSaved = false
          ∧ headerWrites (notebookRun env st markup).trace = [h]
          ∧ (notebookRun env st markup).state = ⟨true, some h⟩))
    ∧ (∀ e, (notebookRun env st markup).result = .error e →
        (notebookRun env st markup).state = st) := by
  cases hp : notebookParse markup with
  | error e => simp [notebookRun, hp, headerWrites]
  | ok d =>
      simp only [notebookRun, hp]
      split
      · simp [headerWrites]
      · split
        · simp [headerWrites]
        · split
          · simp [headerWrites]
          · rename_i x1 body res heq2
            split
            · simp [headerWrites]
            · rcases headerStep_cases env.headerWriteFails res.css st with
                ⟨hsv, hstep⟩ | ⟨hsv, hwf, hstep⟩ | ⟨hsv, hwf, hstep⟩
              · rw [hstep]
                refine ⟨Or.inl ⟨?_, rfl⟩, fun e he => rfl⟩
                show headerWrites (Effect.readFile _ ::
                  (outputEffects env.isDir res.outputs ++ [])) = []
                rw [headerWrites_readFile, List.append_nil, headerWrites_outputEffects]
              · rw [hstep]
                refine ⟨Or.inl ⟨?_, rfl⟩, fun e he => rfl⟩
                show headerWrites (Effect.readFile _ ::
                  (outputEffects env.isDir res.outputs ++ [Effect.printMsg headerMsg])) = []
                rw [headerWrites_readFile, headerWrites_append, headerWrites_outputEffects,
                  headerWrites_printMsg, headerWrites_nil]
                rfl
              · rw [hstep]
                refine ⟨Or.inr ⟨buildHeader res.css, hsv, ?_, rfl⟩,
                  fun e he => Except.noConfusion he⟩
                show headerWrites (Effect.readFile _ ::
                  (outputEffects env.isDir res.outputs ++
                    [Effect.printMsg headerMsg,
                     Effect.writeHeader (buildHeader res.css)])) = [buildHeader res.css]
                rw [headerWrites_readFile, headerWrites_append, headerWrites_outputEffects,
                  headerWrites_printMsg, headerWrites_writeHeader, headerWrites_nil]
                rfl

/-! ## Claim C7 -/

/-- C7: the process-wide flag is set only immediately after a completed
header write: any raised error leaves the header state exactly as it was
(first conjunct); if the flag is set after a run it was already set
before or a header write completed during the run (second conjunct); and
a completed header write does set the flag (third conjunct). -/
theorem header_flag_only_after_write {Nb : Type} (env : Env Nb) (st : HeaderState)
    (markup : String) :
    (∀ e, (notebookRun env st markup).result = .error e →
        (notebookRun env st markup).state = st)
    ∧ ((notebookRun env st markup).state.headerSaved = true →
        st.headerSaved = true
        ∨ ∃ h, Effect.writeHeader h ∈ (notebookRun env st markup).trace)
    ∧ ((∃ h, Effect.writeHeader h ∈ (notebookRun env st markup).trace) →
        (notebookRun env st markup).state.headerSaved = true) := by
  obtain ⟨hchar, herr⟩ := notebookRun_header_char env st markup
  refine ⟨herr, ?_, ?_⟩
  · intro hsv
    rcases hchar with ⟨hw, hst⟩ | ⟨h, hf, hw, hst⟩
    · rw [hst] at hsv
      exact Or.inl hsv
    · refine Or.inr ⟨h, (mem_headerWrites h _).mp ?_⟩
      rw [hw]
      exact List.mem_singleton.mpr rfl
  · rintro ⟨h, hmem⟩
    have hh : h ∈ headerWrites (notebookRun env st markup).trace :=
      (mem_headerWrites h _).mpr hmem
    rcases hchar with ⟨hw, hst⟩ | ⟨h2, hf, hw, hst⟩
    · rw [hw] at hh
      cases hh
    · rw [hst]

/-- Witness for C7: an expansion whose header write fails (the header
file cannot be opened) leaves the header state untouched and the flag
clear. -/
theorem header_flag_only_after_write_witness :
    (notebookRun (demoEnv [] false true) initialHeaderState "nb.ipynb").state
      = initialHeaderState
    ∧ (notebookRun (demoEnv [] false true) initialHeaderState "nb.ipynb").state.headerSaved
      = false :=
  ⟨(header_flag_only_after_write (demoEnv [] false true) initialHeaderState "nb.ipynb").1
      (.ioError "could not open _nb_header.html for writing") (by rfl),
   by rfl⟩

/-! ## Claim C6 -/

/-- C6: a well-formed directive whose resolved source path does not exist
fails with a `ValueError` whose message contains the resolved path, and
it fails before anything is read, converted or written: the effect trace
is empty and the header state is unchanged. -/
theorem notfound_before_read {Nb : Type} (env : Env Nb) (st : HeaderState)
    (markup : String) (d : ParsedDirective)
    (hp : notebookParse markup = .ok d)
    (hex : env.fsExists (nbPathOf env d.src) = false) :
    (notebookRun env st markup).trace = []
    ∧ (notebookRun env st markup).state = st
    ∧ (notebookRun env st markup).result =
        .error (.valueError ("File " ++ nbPathOf env d.src ++ " could not be found"))
    ∧ occursIn (nbPathOf env d.src).data
        ("File " ++ nbPathOf env d.src ++ " could not be found").data := by
  have hrun : notebookRun env st markup =
      ⟨[], st, .error (.valueError ("File " ++ nbPathOf env d.src ++
        " could not be found"))⟩ := by
    simp only [notebookRun, hp]
    rw [if_pos hex]
  rw [hrun]
  exact ⟨rfl, rfl, rfl,
    ⟨"File ".data, " could not be found".data, by simp [String.data_append]⟩⟩

/-- Witness for C6 on an empty file system. -/
theorem notfound_before_read_witness :
    (notebookRun demoMissingEnv initialHeaderState "nb.ipynb").trace = []
    ∧ (notebookRun demoMissingEnv initialHeaderState "nb.ipynb").result =
        .error (.valueError "File content/notebooks/nb.ipynb could not be found") := by
  have h := notfound_before_read demoMissingEnv initialHeaderState "nb.ipynb"
    ⟨"nb.ipynb", 0, none, none⟩ (by rfl) (by rfl)
  exact ⟨h.1, h.2.2.1⟩

/-! ## Claim C3 -/

theorem runSeq_cons {Nb : Type} (env : Env Nb) (m : String)
    (rest : List (Env Nb × String)) (st : HeaderState) :
    runSeq ((env, m) :: rest) st =
      ((notebookRun env st m).trace ++ (runSeq rest (notebookRun env st m).state).1,
        (runSeq rest (notebookRun env st m).state).2) := rfl

/-- Invariant of a run sequence: once the flag is set nothing further is
written and the state is frozen; from a clear initial state either no
header write ever happens, or exactly one does and the final state
records exactly that write's content. -/
theorem runSeq_header_inv {Nb : Type} (inputs : List (Env Nb × String)) :
    ∀ st : HeaderState,
    (st.headerSaved = true →
        headerWrites (runSeq inputs st).1 = [] ∧ (runSeq inputs st).2 = st)
    ∧ (st.headerSaved = false ∧ st.headerFile = none →
        (headerWrites (runSeq inputs st).1 = [] ∧ (runSeq inputs st).2 = st)
        ∨ (∃ h, headerWrites (runSeq inputs st).1 = [h]
            ∧ (runSeq inputs st).2 = ⟨true, some h⟩)) := by
  induction inputs with
  | nil => exact fun st => ⟨fun _ => ⟨rfl, rfl⟩, fun _ => Or.inl ⟨rfl, rfl⟩⟩
  | cons p rest ih =>
      intro st
      obtain ⟨env, m⟩ := p
      have hchar := (notebookRun_header_char env st m).1
      rw [runSeq_cons]
      constructor
      · intro hsv
        rcases hchar with ⟨hw, hst⟩ | ⟨h, hf, hw, hst⟩
        · have hr := (ih (notebookRun env st m).state).1 (by rw [hst]; exact hsv)
          exact ⟨by rw [headerWrites_append, hw, hr.1]; rfl, by rw [hr.2, hst]⟩
        · rw [hsv] at hf
          exact Bool.noConfusion hf
      · rintro ⟨hsv, hfl⟩
        rcases hchar with ⟨hw, hst⟩ | ⟨h, hf, hw, hst⟩
        · rcases (ih (notebookRun env st m).state).2
            (by rw [hst]; exact ⟨hsv, hfl⟩) with ⟨hw2, hst2⟩ | ⟨h2, hw2, hst2⟩
          · exact Or.inl ⟨by rw [headerWrites_append, hw, hw2]; rfl, by rw [hst2, hst]⟩
          · exact Or.inr ⟨h2, by rw [headerWrites_append, hw, hw2]; rfl, by rw [hst2]⟩
        · have hr := (ih (notebookRun env st m).state).1 (by rw [hst])
          exact Or.inr ⟨h,
            by rw [headerWrites_append, hw, hr.1, List.append_nil],
            by rw [hr.2, hst]⟩

/-- C3: across any sequence of directive expansions in one process run,
starting from the initial header state, the header file is written at
most once; the header file's final content is exactly the single written
content (`none` when no expansion reached a successful header write), so
the CSS of a second or later expansion never appears in it; and any
expansion that starts with the flag already set performs no header write
at all and leaves the header state untouched. -/
theorem header_written_at_most_once {Nb : Type} (inputs : List (Env Nb × String)) :
    (headerWrites (runSeq inputs initialHeaderState).1).length ≤ 1
    ∧ (runSeq inputs initialHeaderState).2.headerFile =
        (headerWrites (runSeq inputs initialHeaderState).1).head?
    ∧ (∀ (env : Env Nb) (m : String) (s : HeaderState), s.headerSaved = true →
        headerWrites (notebookRun env s m).trace = []
        ∧ (notebookRun env s m).state = s) := by
  have hinv := (runSeq_header_inv inputs initialHeaderState).2 ⟨rfl, rfl⟩
  refine ⟨?_, ?_, ?_⟩
  · rcases hinv with ⟨hw, _⟩ | ⟨h, hw, _⟩ <;> rw [hw] <;> simp
  · rcases hinv with ⟨hw, hst⟩ | ⟨h, hw, hst⟩
    · rw [hw, hst]
      rfl
    · rw [hw, hst]
      rfl
  · intro env m s hsv
    rcases (notebookRun_header_char env s m).1 with ⟨hw, hst⟩ | ⟨h, hf, _, _⟩
    · exact ⟨hw, hst⟩
    · rw [hsv] at hf
      exact Bool.noConfusion hf

/-- Witness for C3: two expansions with different CSS; only the first
expansion's header appears, and an expansion starting with the flag set
writes nothing. -/
theorem header_written_at_most_once_witness :
    (runSeq [((demoEnv ["cssA"] false false), "nb.ipynb"),
             ((demoEnv ["cssB"] false false), "nb.ipynb")] initialHeaderState).2.headerFile =
      (headerWrites (runSeq [((demoEnv ["cssA"] false false), "nb.ipynb"),
             ((demoEnv ["cssB"] false false), "nb.ipynb")] initialHeaderState).1).head?
    ∧ headerWrites (runSeq [((demoEnv ["cssA"] false false), "nb.ipynb"),
             ((demoEnv ["cssB"] false false), "nb.ipynb")] initialHeaderState).1
        = [buildHeader ["cssA"]]
    ∧ headerWrites (notebookRun (demoEnv ["cssB"] false false)
        ⟨true, some "X"⟩ "nb.ipynb").trace = [] := by
  refine ⟨(header_written_at_most_once _).2.1, by rfl,
    ((header_written_at_most_once ([] : List (Env Unit × String))).2.2
      (demoEnv ["cssB"] false false) "nb.ipynb" ⟨true, some "X"⟩ rfl).1⟩

end NotebookTag
